import Mathlib

set_option maxRecDepth 16384

/-!
Shallow embedding of the HSK1 content pipeline
(`src/content/hsk1/structure_chapters.py`, `correct_chapters.py`,
`extract_vocabulary.py`, `extract_atoms.py`) together with theorems
checking the specification's claims about it.

Conventions of the embedding:
* Python strings become Lean `String` (a wrapper around `List Char`);
  `str.strip()` becomes `pyStrip` (drop whitespace at both ends),
  `'sep'.join(xs)` becomes `joinSep`, `s.split(c)` becomes `splitOnChar`.
* The regular expressions of the source are hand-compiled to character-list
  scanners with the same backtracking semantics; `\d` is embedded as an
  ASCII digit and `\s` as the ASCII whitespace class (the OCR inputs this
  pipeline handles are ASCII/Chinese text; no other Unicode digit or space
  classes occur).
* Python dicts (insertion ordered) become association lists `List (Nat × String)`
  with an update `dictSet` that overwrites in place or appends at the end.
* The thread pool of `correct_chapters.py` is modelled by folding over the
  dispatched tasks in an arbitrary completion order (the task-list argument);
  the external corrector is a parameter returning `Except`.
-/

/-- Whitespace class used by Python's `str.strip` / regex `\s` (ASCII part). -/
def isSpaceChar (c : Char) : Bool :=
  c = ' ' || c = '\t' || c = '\n' || c = '\x0d' || c = '\x0b' || c = '\x0c'

/-- Drop whitespace from both ends of a character list (Python `str.strip()`). -/
def trimChars (cs : List Char) : List Char :=
  ((cs.dropWhile isSpaceChar).reverse.dropWhile isSpaceChar).reverse

/-- Embedding of Python `str.strip()`. -/
def pyStrip (s : String) : String := ⟨trimChars s.data⟩

/-- Embedding of Python `'sep'.join(xs)`. -/
def joinSep (sep : String) : List String → String
  | [] => ""
  | [x] => x
  | x :: xs => x ++ sep ++ joinSep sep xs

/-- Embedding of Python `s.split(c)` for a single-character separator:
splits at every occurrence, keeping empty pieces. -/
def splitOnChar (sep : Char) : List Char → List (List Char)
  | [] => [[]]
  | c :: rest =>
    if c = sep then [] :: splitOnChar sep rest
    else
      match splitOnChar sep rest with
      | s :: ss => (c :: s) :: ss
      | [] => [[c]]

/-- ASCII decimal digit, the embedding of regex `\d`. -/
def isDigitChar (c : Char) : Bool := '0' ≤ c && c ≤ '9'

/-- Numeric value of an ASCII digit. -/
def digitVal (c : Char) : Nat := c.toNat - '0'.toNat

/-- Leftmost match of `re.search(r'(\d{2})-\d+', text)`: scan positions left to
right; at the first position holding two digits, a dash and a digit, return the
value of the two-digit group. -/
def findMarker : List Char → Option Nat
  | a :: b :: c :: d :: rest =>
    if isDigitChar a && isDigitChar b && c = '-' && isDigitChar d then
      some (digitVal a * 10 + digitVal b)
    else findMarker (b :: c :: d :: rest)
  | _ => none

/-- Embedding of `extract_lesson_number` from `structure_chapters.py`:
the two-digit component of the first audio marker, if any. -/
def extract_lesson_number (text : String) : Option Nat := findMarker text.data

/-- Python-dict update on an insertion-ordered association list: overwrite the
value in place if the key is present, else append the binding at the end. -/
def dictSet (m : List (Nat × String)) (k : Nat) (v : String) : List (Nat × String) :=
  if m.any (fun p => p.1 = k) then m.map (fun p => if p.1 = k then (k, v) else p)
  else m ++ [(k, v)]

/-- Saving the accumulated lesson (`chapters[current_lesson] = '\n\n'.join(current_content)`
guarded by `if current_content and current_lesson > 0`). -/
def flushChapter (chapters : List (Nat × String)) (cur : Nat) (content : List String) :
    List (Nat × String) :=
  if content ≠ [] ∧ cur > 0 then dictSet chapters cur (joinSep "\n\n" content) else chapters

/-- Loop body of `structure_into_chapters` (`structure_chapters.py`): a valid
marker (`lesson_num` truthy, hence nonzero, and `≤ 15`) differing from the
current lesson flushes the accumulator and starts a new lesson; any other page
is appended when nonempty after stripping. -/
def segLoop : List String → List (Nat × String) → Nat → List String → List (Nat × String)
  | [], chapters, cur, content => flushChapter chapters cur content
  | p :: rest, chapters, cur, content =>
    match extract_lesson_number p with
    | some L =>
      if L ≠ 0 ∧ L ≤ 15 ∧ L ≠ cur then
        segLoop rest (flushChapter chapters cur content) L [pyStrip p]
      else if pyStrip p ≠ "" then segLoop rest chapters cur (content ++ [pyStrip p])
      else segLoop rest chapters cur content
    | none =>
      if pyStrip p ≠ "" then segLoop rest chapters cur (content ++ [pyStrip p])
      else segLoop rest chapters cur content

/-- Embedding of `structure_into_chapters` from `structure_chapters.py`. -/
def structure_into_chapters (pages : List String) : List (Nat × String) :=
  segLoop pages [] 0 []

/-- Loop body of the grouping pass inside `extract_chapters_from_ocr`
(`correct_chapters.py`). Identical to `segLoop` except that the new-lesson
condition is `lesson_num <= 15 and lesson_num != current_lesson`, with no
truthiness guard excluding a `00` marker. -/
def groupLoop : List String → List (Nat × String) → Nat → List String → List (Nat × String)
  | [], chapters, cur, content => flushChapter chapters cur content
  | p :: rest, chapters, cur, content =>
    match extract_lesson_number p with
    | some L =>
      if L ≤ 15 ∧ L ≠ cur then
        groupLoop rest (flushChapter chapters cur content) L [pyStrip p]
      else if pyStrip p ≠ "" then groupLoop rest chapters cur (content ++ [pyStrip p])
      else groupLoop rest chapters cur content
    | none =>
      if pyStrip p ≠ "" then groupLoop rest chapters cur (content ++ [pyStrip p])
      else groupLoop rest chapters cur content

/-- Embedding of the page-grouping part of `extract_chapters_from_ocr`
(`correct_chapters.py`), applied to the already-split page list. -/
def extract_chapters_from_ocr (pages : List String) : List (Nat × String) :=
  groupLoop pages [] 0 []

/-- Outcome of one invocation of the external corrector, as seen by
`correct_chapter_with_claude`: corrected text, or the exception message. -/
def Corrector : Type := Nat → String → Except String String

/-- True when the corrector invocation returned corrected text. -/
def exceptOk : Except String String → Bool
  | .ok _ => true
  | .error _ => false

/-- State threaded through the `as_completed` loop of
`process_all_chapters_parallel` (`correct_chapters.py`): the `results` dict,
the per-lesson files written so far, and the lessons whose correction task
actually invoked the corrector. -/
structure OrchState where
  results : List (Nat × String)
  store : List (Nat × String)
  invoked : List Nat
deriving DecidableEq

/-- Embedding of the result-collection loop of `process_all_chapters_parallel`:
each dispatched task invokes the corrector exactly once; on success the result
is recorded in the `results` dict and written to the per-lesson store; on
failure the exception is only printed, leaving `results` and the store
untouched, and the loop continues with the remaining tasks. The task list is
the lessons in completion order. -/
def orchLoop (cor : Corrector) : List (Nat × String) → OrchState → OrchState
  | [], acc => acc
  | (n, content) :: rest, acc =>
    match cor n content with
    | .ok corrected =>
      orchLoop cor rest
        { results := dictSet acc.results n corrected,
          store := dictSet acc.store n corrected,
          invoked := acc.invoked ++ [n] }
    | .error _ =>
      orchLoop cor rest { acc with invoked := acc.invoked ++ [n] }

/-- Embedding of `process_all_chapters_parallel` (`correct_chapters.py`):
submit one correction task per chapter and collect results. `store0` is the
content of the `corrected_chapters` directory before the run; the source never
consults it when dispatching. -/
def process_all_chapters_parallel (cor : Corrector) (chapters : List (Nat × String))
    (store0 : List (Nat × String)) : OrchState :=
  orchLoop cor chapters { results := [], store := store0, invoked := [] }

/-- The fixed divider line of `combine_all_chapters`: `"=" * 70`. -/
def divider : String := ⟨List.replicate 70 '='⟩

/-- First header element of the combined document. -/
def header1 : String := "# HSK 1 - Chapters 1-15 (Corrected)\n"

/-- Second header element of the combined document. -/
def header2 : String := "# OCR errors fixed, formatting standardized\n\n"

/-- Per-lesson elements appended by the loop of `combine_all_chapters`
(`correct_chapters.py`): for each `i` in `range(1, 16)` whose per-lesson file
exists, a divider block, the file content, and a newline. `f` is the
filesystem view: `f i` is the content of `chapter_i.txt` when it exists. -/
def chapter_blocks (f : Nat → Option String) : List String :=
  (List.range' 1 15).flatMap (fun i =>
    match f i with
    | some content => ["\n" ++ divider ++ "\n", content, "\n"]
    | none => [])

/-- Embedding of `combine_all_chapters` (`correct_chapters.py`): header
elements then the per-lesson blocks, joined by `'\n'.join`. -/
def combine_all_chapters (f : Nat → Option String) : String :=
  joinSep "\n" (header1 :: header2 :: chapter_blocks f)

/-- Lessons in `[1, 15]` whose per-lesson artifact exists, ascending. -/
def included_lessons (f : Nat → Option String) : List Nat :=
  (List.range' 1 15).filter (fun i => (f i).isSome)

/-- ASCII letter, part of the pinyin character class of the vocabulary regexes. -/
def isAsciiAlphaChar (c : Char) : Bool :=
  ('a' ≤ c && c ≤ 'z') || ('A' ≤ c && c ≤ 'Z')

/-- Accented vowels listed in the pinyin character class of
`extract_vocabulary.py`, plus their uppercase forms (the regexes run under
`re.IGNORECASE`). -/
def accentedPinyin : List Char :=
  ['ü', 'ǖ', 'ǘ', 'ǚ', 'ǜ', 'ā', 'á', 'ǎ', 'à', 'ē', 'é', 'ě', 'è',
   'ī', 'í', 'ǐ', 'ì', 'ō', 'ó', 'ǒ', 'ò', 'ū', 'ú', 'ǔ', 'ù',
   'Ü', 'Ǖ', 'Ǘ', 'Ǚ', 'Ǜ', 'Ā', 'Á', 'Ǎ', 'À', 'Ē', 'É', 'Ě', 'È',
   'Ī', 'Í', 'Ǐ', 'Ì', 'Ō', 'Ó', 'Ǒ', 'Ò', 'Ū', 'Ú', 'Ǔ', 'Ù']

/-- Character class `[a-zA-Züǖǘǚǜāáǎàēéěèīíǐìōóǒòūúǔù]` under `IGNORECASE`. -/
def isPinyinChar (c : Char) : Bool := isAsciiAlphaChar c || accentedPinyin.contains c

/-- The `POS_MAPPING` table of `extract_vocabulary.py`. -/
def POS_MAPPING : List (String × String) :=
  [("pron.", "pronoun"), ("pron", "pronoun"),
   ("adj.", "adjective"), ("adj", "adjective"),
   ("v.", "verb"), ("verb", "verb"),
   ("n.", "noun"), ("noun", "noun"),
   ("adv.", "adverb"), ("adv", "adverb"),
   ("prep.", "preposition"), ("prep", "preposition"),
   ("conj.", "conjunction"), ("conj", "conjunction"),
   ("part.", "particle"), ("particle", "particle"),
   ("num.", "numeral"), ("numeral", "numeral"),
   ("m.", "measure_word"), ("mw.", "measure_word"),
   ("measure word", "measure_word"),
   ("interj.", "interjection"), ("interj", "interjection")]

/-- ASCII lowercasing; the table keys are ASCII, so for the purpose of the
table lookup this agrees with Python's `str.lower()`. -/
def toLowerAscii (c : Char) : Char :=
  if 'A' ≤ c && c ≤ 'Z' then Char.ofNat (c.toNat + 32) else c

/-- Lowercase every character of a string. -/
def lowerStr (s : String) : String := ⟨s.data.map toLowerAscii⟩

/-- Embedding of `normalize_pos` (`extract_vocabulary.py`):
`POS_MAPPING.get(pos.lower().strip(), 'other')`. -/
def normalize_pos (pos : String) : String :=
  ((POS_MAPPING.find? (fun kv => kv.1 == pyStrip (lowerStr pos))).map (fun kv => kv.2)).getD
    "other"

/-- Alternatives of the part-of-speech alternation
`(?:pron|adj|v|n|adv|prep|conj|part|num|m|mw|interj)`, in source order. -/
def posAlts : List String :=
  ["pron", "adj", "v", "n", "adv", "prep", "conj", "part", "num", "m", "mw", "interj"]

/-- Case-insensitive literal prefix match: on success returns the matched input
characters (as they appear in the input) and the remainder. -/
def stripPrefixCI : List Char → List Char → Option (List Char × List Char)
  | [], rest => some ([], rest)
  | _ :: _, [] => none
  | a :: pas, c :: rest =>
    if toLowerAscii c = a then
      (stripPrefixCI pas rest).map (fun pr => (c :: pr.1, pr.2))
    else none

/-- Tail regex `\s*(.+)$` with Python's backtracking: it succeeds exactly when
at least one character remains; the capture is the remainder after the maximal
whitespace run, except that on an all-whitespace remainder the greedy `\s*`
backs off one character so `.+` captures the final whitespace character. -/
def tailMeaning (cs : List Char) : Option String :=
  if cs = [] then none
  else
    let rest := cs.dropWhile isSpaceChar
    if rest = [] then
      match cs.reverse with
      | c :: _ => some ⟨[c]⟩
      | [] => none
    else some ⟨rest⟩

/-- Tail regex `\s+(.+)$` (pattern 2 of `parse_vocab_line`): a nonempty
whitespace run, then at least one more character; on an all-whitespace
remainder of length two or more, `\s+` backs off so `.+` captures the final
whitespace character. -/
def wsPlusTail (cs : List Char) : Option String :=
  let ws := cs.takeWhile isSpaceChar
  let rest := cs.dropWhile isSpaceChar
  if ws = [] then none
  else if rest ≠ [] then some ⟨rest⟩
  else
    match ws.reverse with
    | c :: _ :: _ => some ⟨[c]⟩
    | _ => none

/-- After a part-of-speech alternative has matched `matched`, the rest of the
tagged-form regex: greedy optional `\.?` followed by `\s*(.+)$`, backtracking
on the dot when taking it leaves nothing for `.+`. Returns the captured
part-of-speech text and the meaning capture. -/
def posDotTail (matched : List Char) (rest : List Char) : Option (String × String) :=
  match rest with
  | '.' :: rest2 =>
    (match tailMeaning rest2 with
     | some m => some (⟨matched ++ ['.']⟩, m)
     | none => (tailMeaning rest).map (fun m => ((⟨matched⟩ : String), m)))
  | _ => (tailMeaning rest).map (fun m => ((⟨matched⟩ : String), m))

/-- Regex alternation over the part-of-speech alternatives: first alternative
(in source order) whose prefix match lets the rest of the pattern succeed. -/
def posAltScan : List String → List Char → Option (String × String)
  | [], _ => none
  | alt :: alts, cs =>
    match stripPrefixCI alt.data cs with
    | some (m, rest) =>
      (match posDotTail m rest with
       | some r => some r
       | none => posAltScan alts cs)
    | none => posAltScan alts cs

/-- Embedding of `re.match(r'^((?:pron|...|interj)\.?)\s*(.+)$', s, IGNORECASE)`:
the captured part-of-speech token and the captured meaning. -/
def posMatch (cs : List Char) : Option (String × String) := posAltScan posAlts cs

/-- Maximal run of characters satisfying `p` and the remainder. -/
def takeRun (p : Char → Bool) (cs : List Char) : List Char × List Char :=
  (cs.takeWhile p, cs.dropWhile p)

/-- Leading `^(\d+)\.` of the vocabulary regexes: a nonempty ASCII digit run
followed by a literal dot; returns the remainder. -/
def afterNumDot (cs : List Char) : Option (List Char) :=
  let ds := cs.takeWhile isDigitChar
  let r1 := cs.dropWhile isDigitChar
  if ds = [] then none
  else
    match r1 with
    | '.' :: r2 => some r2
    | _ => none

/-- Record produced by `parse_vocab_line`: the four dictionary fields. -/
structure ParsedEntry where
  word : String
  pinyin : String
  part_of_speech : String
  meaning : String
deriving DecidableEq

/-- Common record constructor of `parse_vocab_line`: every branch strips the
captures and normalizes the part of speech. -/
def mkEntry (chinese pinyin pos meaning : String) : ParsedEntry :=
  { word := pyStrip chinese, pinyin := pyStrip pinyin,
    part_of_speech := normalize_pos pos, meaning := pyStrip meaning }

/-- Regex `^(\d+)\.\s*(.+)$` used on the first pipe-separated column:
returns the digit capture and the trailing capture. -/
def matchNumDotRest (cs : List Char) : Option (String × String) :=
  match afterNumDot cs with
  | some r2 => (tailMeaning r2).map (fun rest => ((⟨cs.takeWhile isDigitChar⟩ : String), rest))
  | none => none

/-- Pipe-separated branch of `parse_vocab_line` (`extract_vocabulary.py`):
requires a `|` in the line and at least 3 columns; column 0 holds
`number. word`, column 1 the pinyin; with 4 or more columns, column 2 is the
part of speech (defaulting to `other` when blank) and column 3 the meaning,
otherwise column 2 is the meaning. Falls through (returns `none`) whenever the
source would not return from this branch. -/
def parsePipe (line : String) : Option ParsedEntry :=
  if line.data.contains '|' then
    match splitOnChar '|' line.data with
    | p0 :: p1 :: p2 :: ps =>
      (match matchNumDotRest (trimChars p0) with
       | some (_, chinese) =>
         let pinyin : String := ⟨trimChars p1⟩
         let col2 : String := ⟨trimChars p2⟩
         let posMeaning : String × String :=
           match ps with
           | p3 :: _ => (if col2 = "" then "other" else col2, (⟨trimChars p3⟩ : String))
           | [] => ("other", col2)
         if chinese ≠ "" ∧ pinyin ≠ "" then
           some (mkEntry chinese pinyin posMeaning.1 posMeaning.2)
         else none
       | none => none)
    | _ => none
  else none

/-- Tagged space-separated branch of `parse_vocab_line`: regex
`^(\d+)\.\s*(\S+)\s+(P(?:\s+P)?)\s+(POS\.?)\s*(.+)$` over the stripped line,
where `P` is a pinyin-alphabet run and `POS` the alternation; greedy pinyin
(two syllables preferred) with backtracking to one syllable when the rest of
the pattern fails. -/
def parseTagged (line : String) : Option ParsedEntry :=
  match afterNumDot (trimChars line.data) with
  | none => none
  | some r2 =>
    let r3 := r2.dropWhile isSpaceChar
    let (chin, r4) := takeRun (fun c => !isSpaceChar c) r3
    if chin = [] then none
    else
      let (ws1, r5) := takeRun isSpaceChar r4
      if ws1 = [] then none
      else
        let (s1, r6) := takeRun isPinyinChar r5
        if s1 = [] then none
        else
          let pathA : Option ParsedEntry :=
            (let (wsA, rA) := takeRun isSpaceChar r6
             if wsA = [] then none
             else
               let (s2, rB) := takeRun isPinyinChar rA
               if s2 = [] then none
               else
                 let (wsB, rC) := takeRun isSpaceChar rB
                 if wsB = [] then none
                 else
                   (posMatch rC).map (fun pm =>
                     mkEntry ⟨chin⟩ ⟨s1 ++ wsA ++ s2⟩ pm.1 pm.2))
          match pathA with
          | some e => some e
          | none =>
            let (wsB, rC) := takeRun isSpaceChar r6
            if wsB = [] then none
            else (posMatch rC).map (fun pm => mkEntry ⟨chin⟩ ⟨s1⟩ pm.1 pm.2)

/-- Untagged space-separated branch of `parse_vocab_line`: regex
`^(\d+)\.\s*(\S+)\s+(P(?:\s+P)?)\s+(.+)$` over the stripped line, then an
opportunistic part-of-speech prefix match inside the meaning capture,
defaulting to `other`. -/
def parseUntagged (line : String) : Option ParsedEntry :=
  match afterNumDot (trimChars line.data) with
  | none => none
  | some r2 =>
    let r3 := r2.dropWhile isSpaceChar
    let (chin, r4) := takeRun (fun c => !isSpaceChar c) r3
    if chin = [] then none
    else
      let (ws1, r5) := takeRun isSpaceChar r4
      if ws1 = [] then none
      else
        let (s1, r6) := takeRun isPinyinChar r5
        if s1 = [] then none
        else
          let finish : String → String → ParsedEntry := fun pinyin meaning =>
            match posMatch meaning.data with
            | some pm => mkEntry ⟨chin⟩ pinyin pm.1 pm.2
            | none => mkEntry ⟨chin⟩ pinyin "other" meaning
          let pathA : Option ParsedEntry :=
            (let (wsA, rA) := takeRun isSpaceChar r6
             if wsA = [] then none
             else
               let (s2, rB) := takeRun isPinyinChar rA
               if s2 = [] then none
               else
                 (wsPlusTail rB).map (fun meaning =>
                   finish ⟨s1 ++ wsA ++ s2⟩ meaning))
          match pathA with
          | some e => some e
          | none => (wsPlusTail r6).map (fun meaning => finish ⟨s1⟩ meaning)

/-- Embedding of `parse_vocab_line` (`extract_vocabulary.py`): the
pipe-separated form is tried first, then the tagged space-separated form, then
the untagged one; the first branch to produce a record wins. -/
def parse_vocab_line (line : String) : Option ParsedEntry :=
  match parsePipe line with
  | some e => some e
  | none =>
    match parseTagged line with
    | some e => some e
    | none => parseUntagged line

/-- Test whether the raw line starts with the given character
(Python `line.startswith(c)`). -/
def startsWithChar (c : Char) (s : String) : Bool :=
  match s.data with
  | c' :: _ => c' = c
  | [] => false

/-- Candidate filter `re.match(r'^\d+\.\s+\S', line)` of
`extract_vocab_from_chapter`: digits, a dot, at least one whitespace
character, then a non-whitespace character, at the start of the raw line. -/
def isVocabCandidate (line : String) : Bool :=
  match afterNumDot line.data with
  | some r =>
    let ws := r.takeWhile isSpaceChar
    let rest := r.dropWhile isSpaceChar
    !ws.isEmpty && !rest.isEmpty
  | none => false

/-- Vocabulary record as serialized by the extractors: the four parsed fields
plus originating chapter, source tag, and the optional `atom` kind tag. -/
structure VocabRecord where
  word : String
  pinyin : String
  part_of_speech : String
  meaning : String
  chapter : Nat
  source : String
  tag : Option String := none
deriving DecidableEq

/-- Embedding of `extract_vocab_from_chapter` (`extract_vocabulary.py`): split
the chapter content into lines; skip lines empty after stripping or starting
with `#` or `|`; parse each candidate line, attaching the chapter number and
source tag. -/
def extract_vocab_from_chapter (content : String) (chapter_num : Nat) : List VocabRecord :=
  ((splitOnChar '\n' content.data).map (fun cs => (⟨cs⟩ : String))).filterMap (fun line =>
    if pyStrip line = "" || startsWithChar '#' line || startsWithChar '|' line then none
    else if isVocabCandidate line then
      (parse_vocab_line line).map (fun e =>
        { word := e.word, pinyin := e.pinyin, part_of_speech := e.part_of_speech,
          meaning := e.meaning, chapter := chapter_num, source := "hsk1" })
    else none)

/-- First-occurrence-wins de-duplication over a record stream, shared by
`extract_all_chapters` (`extract_vocabulary.py`, seed empty) and
`process_all_chapters` (`extract_atoms.py`, seed = previously known words):
a record is appended and its word added to the seen set only when its word is
not yet seen; otherwise it is dropped (and the skip is printed). -/
def dedupRecords (seen : List String) : List VocabRecord → List VocabRecord
  | [] => []
  | r :: rs =>
    if r.word ∈ seen then dedupRecords seen rs
    else r :: dedupRecords (r.word :: seen) rs

/-- The record stream of `extract_all_chapters`: chapters `1..15` in ascending
order (skipping chapters with no corrected file), each contributing its parsed
records in line order. `store i` is the content of `chapter_i.txt` if present. -/
def chapterStream (store : Nat → Option String) : List VocabRecord :=
  (List.range' 1 15).flatMap (fun i =>
    match store i with
    | some content => extract_vocab_from_chapter content i
    | none => [])

/-- Embedding of `extract_all_chapters` (`extract_vocabulary.py`): the
de-duplicated record stream, first occurrence winning, starting from an empty
seen set. -/
def extract_all_chapters (store : Nat → Option String) : List VocabRecord :=
  dedupRecords [] (chapterStream store)

/-- Embedding of `process_all_chapters` (`extract_atoms.py`): the per-chapter
atom lists (as returned by the extraction calls, `[]` for a missing chapter or
a failed call) are combined in ascending chapter order and de-duplicated with
the seen set seeded with all existing standard-vocabulary words. -/
def process_all_chapters (existing : List String) (perChapter : Nat → List VocabRecord) :
    List VocabRecord :=
  dedupRecords existing ((List.range' 1 15).flatMap perChapter)

/-- Codepoint-lexicographic string comparison, the order Python uses when
comparing `str` values inside a sort key tuple. -/
def charListLe : List Char → List Char → Bool
  | [], _ => true
  | _ :: _, [] => false
  | a :: as, b :: bs =>
    if a.toNat < b.toNat then true
    else if b.toNat < a.toNat then false
    else charListLe as bs

/-- Python `<=` on strings via their character lists. -/
def strLe (a b : String) : Bool := charListLe a.data b.data

/-- Sort key order of `atoms.sort(key=lambda x: (x['chapter'], x['word']))`
(`extract_atoms.py`): lexicographic on the (chapter, word) pair. -/
def chapWordLe (a b : VocabRecord) : Bool :=
  decide (a.chapter < b.chapter) || (decide (a.chapter = b.chapter) && strLe a.word b.word)

/-- The atoms output artifact as written by `main` of `extract_atoms.py`:
the de-duplicated atoms sorted by (chapter, word). -/
def atoms_artifact (existing : List String) (perChapter : Nat → List VocabRecord) :
    List VocabRecord :=
  (process_all_chapters existing perChapter).mergeSort chapWordLe

/-- A page carries a valid lesson marker when its detected two-digit component
lies in `[1, 15]` — the state-independent part of the segmenter's acceptance
condition `lesson_num and lesson_num <= 15`. -/
def validMarker (p : String) : Bool :=
  match extract_lesson_number p with
  | some L => decide (1 ≤ L ∧ L ≤ 15)
  | none => false

/-- Consecutive-pair check of the (chapter ascending, word ascending) order
claimed for the serialized artifacts. -/
def orderedByChapterWord : List VocabRecord → Bool
  | a :: b :: rest => chapWordLe a b && orderedByChapterWord (b :: rest)
  | _ => true

/-- Fixture: an atom proposal for chapter 1 whose word `五` duplicates a known
vocabulary word while pinyin and meaning differ. -/
def atomFixture : Nat → List VocabRecord := fun i =>
  if i = 1 then
    [{ word := "五", pinyin := "wú", part_of_speech := "numeral",
       meaning := "five (variant)", chapter := 1, source := "hsk1",
       tag := some "atom" }]
  else []

/-- Fixture: a corrector that fails exactly for lesson 2. -/
def corB : Corrector := fun n _ =>
  if n = 2 then Except.error "invocation failed" else Except.ok "corrected"

/-- Fixture: three dispatched lessons. -/
def chaptersB : List (Nat × String) := [(1, "p1"), (2, "p2"), (3, "p3")]

/-- Fixture: a corrector that always succeeds. -/
def corOk : Corrector := fun _ _ => Except.ok "corrected"

/-- Fixture: filesystem with persisted artifacts for lessons 1 and 3 only. -/
def storeB : Nat → Option String := fun n =>
  if n = 1 then some "Lesson one corrected"
  else if n = 3 then some "Lesson three corrected"
  else none

/-- Fixture: a corrected chapter 1 whose two vocabulary lines carry words in
decreasing codepoint order (`你` > `一`). -/
def storeC7 : Nat → Option String := fun n =>
  if n = 1 then some "1. 你 nǐ pron. you\n2. 一 yī num. one" else none

/-! ### Helper lemmas about the dict model -/

/-- Updating a present key rewrites in place, leaving the key list unchanged. -/
theorem dictSet_map_fst_of_mem {m : List (Nat × String)} {k : Nat} (v : String)
    (h : m.any (fun p => p.1 = k) = true) :
    (dictSet m k v).map Prod.fst = m.map Prod.fst := by
  simp only [dictSet, h, if_true]
  rw [List.map_map]
  have hfun : (Prod.fst ∘ fun p => if p.1 = k then (k, v) else p)
      = (Prod.fst : Nat × String → Nat) := by
    funext p
    by_cases hp : p.1 = k
    · simp [hp]
    · simp [hp]
  rw [hfun]

/-- Updating an absent key appends the binding at the end. -/
theorem dictSet_of_not_mem {m : List (Nat × String)} {k : Nat} (v : String)
    (h : k ∉ m.map Prod.fst) : dictSet m k v = m ++ [(k, v)] := by
  have hany : m.any (fun p => p.1 = k) = false := by
    rw [List.any_eq_false]
    intro p hp
    simp only [decide_eq_true_eq]
    intro hpk
    exact h (List.mem_map.mpr ⟨p, hp, hpk⟩)
  simp [dictSet, hany]

/-- Every key of the updated dict is an old key or the new key. -/
theorem dictSet_fst_mem {m : List (Nat × String)} {k k' : Nat} {v : String}
    (h : k' ∈ (dictSet m k v).map Prod.fst) : k' ∈ m.map Prod.fst ∨ k' = k := by
  by_cases hany : m.any (fun p => p.1 = k) = true
  · rw [dictSet_map_fst_of_mem v hany] at h
    exact Or.inl h
  · simp only [dictSet, hany, if_false] at h
    rcases List.mem_map.mp h with ⟨p, hp, hfst⟩
    rcases List.mem_append.mp hp with hold | hnew
    · exact Or.inl (hfst ▸ List.mem_map.mpr ⟨p, hold, rfl⟩)
    · simp only [List.mem_singleton] at hnew
      subst hnew
      exact Or.inr hfst.symm

/-- Every entry of the updated dict is an old entry or the new binding. -/
theorem dictSet_mem_entries {m : List (Nat × String)} {k : Nat} {v : String}
    {kv : Nat × String} (h : kv ∈ dictSet m k v) : kv ∈ m ∨ kv = (k, v) := by
  by_cases hany : m.any (fun p => p.1 = k) = true
  · simp only [dictSet, hany, if_true] at h
    rcases List.mem_map.mp h with ⟨p, hp, hfp⟩
    by_cases hpk : p.1 = k
    · simp only [hpk, if_true] at hfp
      exact Or.inr hfp.symm
    · simp only [hpk, if_false] at hfp
      exact Or.inl (hfp ▸ hp)
  · simp only [dictSet, hany, if_false] at h
    rcases List.mem_append.mp h with hold | hnew
    · exact Or.inl hold
    · simp only [List.mem_singleton] at hnew
      exact Or.inr hnew

/-! ### Helper lemmas about the orchestrator -/

/-- Every dispatched task invokes the corrector exactly once, regardless of the
initial state (in particular of any pre-existing persisted artifacts). -/
theorem orchLoop_invoked (cor : Corrector) :
    ∀ (tasks : List (Nat × String)) (acc : OrchState),
      (orchLoop cor tasks acc).invoked = acc.invoked ++ tasks.map Prod.fst := by
  intro tasks
  induction tasks with
  | nil => intro acc; simp [orchLoop]
  | cons t rest ih =>
    intro acc
    obtain ⟨n, content⟩ := t
    simp only [orchLoop]
    cases cor n content with
    | ok corrected => rw [ih]; simp
    | error e => rw [ih]; simp

/-- Keys of the results dict after the loop: the keys already present followed
by the dispatched lessons whose correction succeeded, in order. -/
theorem orchLoop_results_keys (cor : Corrector) :
    ∀ (tasks : List (Nat × String)) (acc : OrchState),
      (tasks.map Prod.fst).Nodup →
      (∀ k ∈ acc.results.map Prod.fst, k ∉ tasks.map Prod.fst) →
      (orchLoop cor tasks acc).results.map Prod.fst
        = acc.results.map Prod.fst
          ++ (tasks.filter (fun t => exceptOk (cor t.1 t.2))).map Prod.fst := by
  intro tasks
  induction tasks with
  | nil => intro acc _ _; simp [orchLoop]
  | cons t rest ih =>
    intro acc hnd hdisj
    obtain ⟨n, content⟩ := t
    simp only [List.map_cons, List.nodup_cons] at hnd
    have hn_rest : n ∉ rest.map Prod.fst := hnd.1
    have hnd_rest : (rest.map Prod.fst).Nodup := hnd.2
    cases hcor : cor n content with
    | ok corrected =>
      simp only [orchLoop, hcor]
      have hn_not : n ∉ acc.results.map Prod.fst := by
        intro hmem
        exact hdisj n hmem (by simp)
      have hdisj' : ∀ k ∈ (dictSet acc.results n corrected).map Prod.fst,
          k ∉ rest.map Prod.fst := by
        intro k hk
        rcases dictSet_fst_mem hk with hold | rfl
        · intro hkr
          exact hdisj k hold (by simp [hkr])
        · exact hn_rest
      rw [ih _ hnd_rest hdisj', dictSet_of_not_mem corrected hn_not]
      simp [List.filter_cons, hcor, exceptOk]
    | error e =>
      simp only [orchLoop, hcor]
      have hdisj' : ∀ k ∈ acc.results.map Prod.fst, k ∉ rest.map Prod.fst := by
        intro k hk hkr
        exact hdisj k hk (by simp [hkr])
      rw [ih { results := acc.results, store := acc.store, invoked := acc.invoked ++ [n] }
        hnd_rest hdisj']
      simp [List.filter_cons, hcor, exceptOk]

/-! ### Helper lemmas about de-duplication -/

/-- No accepted record carries a word from the seen set. -/
theorem dedupRecords_word_not_seen :
    ∀ (rs : List VocabRecord) (seen : List String) (r : VocabRecord),
      r ∈ dedupRecords seen rs → r.word ∉ seen := by
  intro rs
  induction rs with
  | nil => intro seen r h; simp [dedupRecords] at h
  | cons a rs ih =>
    intro seen r h
    simp only [dedupRecords] at h
    by_cases ha : a.word ∈ seen
    · rw [if_pos ha] at h
      exact ih seen r h
    · rw [if_neg ha] at h
      rcases List.mem_cons.mp h with rfl | hmem
      · exact ha
      · have hns := ih (a.word :: seen) r hmem
        exact fun hs => hns (List.mem_cons_of_mem _ hs)

/-- The accepted records are a sublist of the stream: records are kept
verbatim in order, never merged or overwritten. -/
theorem dedupRecords_sublist :
    ∀ (rs : List VocabRecord) (seen : List String),
      (dedupRecords seen rs).Sublist rs := by
  intro rs
  induction rs with
  | nil => intro seen; simp [dedupRecords]
  | cons a rs ih =>
    intro seen
    simp only [dedupRecords]
    by_cases ha : a.word ∈ seen
    · rw [if_pos ha]
      exact (ih seen).cons a
    · rw [if_neg ha]
      exact (ih (a.word :: seen)).cons₂ a

/-- Accepted words are pairwise distinct. -/
theorem dedupRecords_words_nodup :
    ∀ (rs : List VocabRecord) (seen : List String),
      ((dedupRecords seen rs).map (fun r => r.word)).Nodup := by
  intro rs
  induction rs with
  | nil => intro seen; simp [dedupRecords]
  | cons a rs ih =>
    intro seen
    simp only [dedupRecords]
    by_cases ha : a.word ∈ seen
    · rw [if_pos ha]
      exact ih seen
    · rw [if_neg ha]
      simp only [List.map_cons, List.nodup_cons]
      refine ⟨?_, ih (a.word :: seen)⟩
      intro hmem
      rcases List.mem_map.mp hmem with ⟨r, hr, hw⟩
      exact dedupRecords_word_not_seen rs (a.word :: seen) r hr (hw ▸ List.mem_cons_self _ _)

/-- Complete characterization of acceptance: a record is in the de-duplicated
output exactly when its word is not seeded and it is the first record of the
stream carrying its word. -/
theorem dedupRecords_mem_iff :
    ∀ (rs : List VocabRecord) (seen : List String) (r : VocabRecord),
      r ∈ dedupRecords seen rs
        ↔ (r.word ∉ seen ∧ rs.find? (fun x => x.word == r.word) = some r) := by
  intro rs
  induction rs with
  | nil =>
    intro seen r
    simp [dedupRecords, List.find?]
  | cons a rs ih =>
    intro seen r
    simp only [dedupRecords]
    by_cases he : (a.word == r.word) = true
    · have haw : a.word = r.word := by simpa using he
      by_cases ha : a.word ∈ seen
      · rw [if_pos ha]
        simp only [List.find?, he]
        constructor
        · intro hmem
          exact absurd (haw ▸ ha) ((ih seen r).mp hmem).1
        · rintro ⟨hns, har⟩
          exact absurd (haw ▸ ha) (by simpa using hns)
      · rw [if_neg ha]
        simp only [List.find?, he]
        constructor
        · intro hmem
          rcases List.mem_cons.mp hmem with rfl | hmem'
          · exact ⟨haw ▸ ha, rfl⟩
          · have := dedupRecords_word_not_seen rs (a.word :: seen) r hmem'
            exact absurd (haw ▸ List.mem_cons_self _ _) this
        · rintro ⟨hns, har⟩
          have : a = r := by simpa using har
          exact this ▸ List.mem_cons_self _ _
    · have haw : a.word ≠ r.word := by simpa using he
      by_cases ha : a.word ∈ seen
      · rw [if_pos ha]
        simp only [List.find?, he]
        exact ih seen r
      · rw [if_neg ha]
        simp only [List.find?, he]
        constructor
        · intro hmem
          rcases List.mem_cons.mp hmem with rfl | hmem'
          · exact absurd rfl haw
          · have hx := (ih (a.word :: seen) r).mp hmem'
            refine ⟨?_, hx.2⟩
            intro hs
            exact hx.1 (List.mem_cons_of_mem _ hs)
        · rintro ⟨hns, har⟩
          refine List.mem_cons_of_mem a ?_
          refine (ih (a.word :: seen) r).mpr ⟨?_, har⟩
          intro hs
          rcases List.mem_cons.mp hs with hh | hh
          · exact haw hh.symm
          · exact hns hh

/-! ### Helper lemmas about the combined document and ordering -/

/-- The per-lesson block loop keeps exactly the lessons whose artifact exists. -/
theorem flatMap_blocks_filter (f : Nat → Option String) :
    ∀ (l : List Nat),
      (l.flatMap (fun i =>
        match f i with
        | some content => ["\n" ++ divider ++ "\n", content, "\n"]
        | none => []))
      = (l.filter (fun i => (f i).isSome)).flatMap
          (fun i => ["\n" ++ divider ++ "\n", (f i).getD "", "\n"]) := by
  intro l
  induction l with
  | nil => rfl
  | cons i l ih =>
    cases hf : f i with
    | some c => simp [List.flatMap_cons, List.filter_cons, hf, ih]
    | none => simp [List.flatMap_cons, List.filter_cons, hf, ih]

/-- Every record extracted from a chapter carries that chapter's number. -/
theorem extract_vocab_chapter_eq :
    ∀ (content : String) (i : Nat) (r : VocabRecord),
      r ∈ extract_vocab_from_chapter content i → r.chapter = i := by
  intro content i r hr
  simp only [extract_vocab_from_chapter, List.mem_filterMap] at hr
  rcases hr with ⟨line, _, hline⟩
  split at hline
  · exact absurd hline (by simp)
  · split at hline
    · rcases Option.map_eq_some'.mp hline with ⟨e, _, heq⟩
      rw [← heq]
    · exact absurd hline (by simp)

/-- A list whose records all share one chapter is pairwise
chapter-nondecreasing. -/
theorem pairwise_chapter_le_of_const {l : List VocabRecord} {i : Nat}
    (h : ∀ r ∈ l, r.chapter = i) :
    l.Pairwise (fun a b => a.chapter ≤ b.chapter) := by
  induction l with
  | nil => exact List.Pairwise.nil
  | cons a l ih =>
    refine List.Pairwise.cons ?_ (ih fun r hr => h r (List.mem_cons_of_mem _ hr))
    intro b hb
    rw [h a (List.mem_cons_self _ _), h b (List.mem_cons_of_mem _ hb)]

/-- The concatenated per-chapter stream is chapter-nondecreasing. -/
theorem chapterStream_chapter_le (store : Nat → Option String) :
    (chapterStream store).Pairwise (fun a b => a.chapter ≤ b.chapter) := by
  unfold chapterStream
  rw [List.pairwise_flatMap]
  have hblock : ∀ i (r : VocabRecord),
      r ∈ (match store i with
           | some content => extract_vocab_from_chapter content i
           | none => []) → r.chapter = i := by
    intro i r hr
    cases hf : store i with
    | some c =>
      rw [hf] at hr
      exact extract_vocab_chapter_eq c i r hr
    | none => rw [hf] at hr; exact absurd hr (by simp)
  constructor
  · intro i _
    exact pairwise_chapter_le_of_const (hblock i)
  · have hlt := List.pairwise_lt_range' 1 15
    refine hlt.imp ?_
    intro i j hij x hx y hy
    rw [hblock i x hx, hblock j y hy]
    omega

/-- Totality of the codepoint-lexicographic comparison. -/
theorem charListLe_total :
    ∀ (a b : List Char), charListLe a b = true ∨ charListLe b a = true := by
  intro a
  induction a with
  | nil => intro b; exact Or.inl rfl
  | cons x xs ih =>
    intro b
    cases b with
    | nil => exact Or.inr rfl
    | cons y ys =>
      simp only [charListLe]
      rcases Nat.lt_trichotomy x.toNat y.toNat with hlt | heq | hgt
      · left
        rw [if_pos hlt]
      · rcases ih ys with h | h
        · left
          rw [if_neg (by omega), if_neg (by omega)]
          exact h
        · right
          rw [if_neg (by omega), if_neg (by omega)]
          exact h
      · right
        rw [if_pos hgt]

/-- Transitivity of the codepoint-lexicographic comparison. -/
theorem charListLe_trans :
    ∀ (a b c : List Char), charListLe a b = true → charListLe b c = true →
      charListLe a c = true := by
  intro a
  induction a with
  | nil => intro b c _ _; rfl
  | cons x xs ih =>
    intro b c hab hbc
    cases b with
    | nil => exact absurd hab (by simp [charListLe])
    | cons y ys =>
      cases c with
      | nil => exact absurd hbc (by simp [charListLe])
      | cons z zs =>
        simp only [charListLe] at hab hbc ⊢
        by_cases hxy : x.toNat < y.toNat
        · by_cases hyz : y.toNat < z.toNat
          · rw [if_pos (by omega)]
          · rw [if_pos hxy] at hab
            by_cases hzy : z.toNat < y.toNat
            · rw [if_neg hyz, if_pos hzy] at hbc
              exact absurd hbc (by simp)
            · rw [if_pos (by omega)]
        · rw [if_neg hxy] at hab
          by_cases hyx : y.toNat < x.toNat
          · rw [if_pos hyx] at hab
            exact absurd hab (by simp)
          · rw [if_neg hyx] at hab
            by_cases hyz : y.toNat < z.toNat
            · rw [if_pos (by omega)]
            · rw [if_neg hyz] at hbc
              by_cases hzy : z.toNat < y.toNat
              · rw [if_pos hzy] at hbc
                exact absurd hbc (by simp)
              · rw [if_neg hzy] at hbc
                rw [if_neg (by omega), if_neg (by omega)]
                exact ih ys zs hab hbc

/-- Transitivity of the (chapter, word) sort-key order. -/
theorem chapWordLe_trans (a b c : VocabRecord) (hab : chapWordLe a b = true)
    (hbc : chapWordLe b c = true) : chapWordLe a c = true := by
  simp only [chapWordLe, Bool.or_eq_true, Bool.and_eq_true, decide_eq_true_eq] at hab hbc ⊢
  rcases hab with h1 | ⟨h1, h1w⟩
  · rcases hbc with h2 | ⟨h2, _⟩
    · exact Or.inl (by omega)
    · exact Or.inl (by omega)
  · rcases hbc with h2 | ⟨h2, h2w⟩
    · exact Or.inl (by omega)
    · exact Or.inr ⟨by omega, charListLe_trans _ _ _ h1w h2w⟩

/-- Totality of the (chapter, word) sort-key order. -/
theorem chapWordLe_total (a b : VocabRecord) :
    (chapWordLe a b || chapWordLe b a) = true := by
  simp only [chapWordLe, Bool.or_eq_true, Bool.and_eq_true, decide_eq_true_eq]
  rcases Nat.lt_trichotomy a.chapter b.chapter with hlt | heq | hgt
  · exact Or.inl (Or.inl hlt)
  · rcases charListLe_total a.word.data b.word.data with h | h
    · exact Or.inl (Or.inr ⟨heq, h⟩)
    · exact Or.inr (Or.inr ⟨heq.symm, h⟩)
  · exact Or.inr (Or.inl hgt)

/-! ### Helper lemmas about the segmenters -/

/-- When the page stream contains no marker with two-digit component `00`, the
segmenter of `structure_chapters.py` and the grouping loop of
`correct_chapters.py` run in lockstep from any state. -/
theorem segLoop_eq_groupLoop :
    ∀ (pages : List String), (∀ p ∈ pages, extract_lesson_number p ≠ some 0) →
      ∀ chapters cur content,
        segLoop pages chapters cur content = groupLoop pages chapters cur content := by
  intro pages
  induction pages with
  | nil => intro _ chapters cur content; rfl
  | cons p rest ih =>
    intro h chapters cur content
    have hp : extract_lesson_number p ≠ some 0 := h p (List.mem_cons_self p rest)
    have hrest : ∀ q ∈ rest, extract_lesson_number q ≠ some 0 :=
      fun q hq => h q (List.mem_cons_of_mem p hq)
    cases hL : extract_lesson_number p with
    | none =>
      simp only [segLoop, groupLoop, hL]
      by_cases hs : pyStrip p ≠ ""
      · rw [if_pos hs, if_pos hs]; exact ih hrest _ _ _
      · rw [if_neg hs, if_neg hs]; exact ih hrest _ _ _
    | some L =>
      simp only [segLoop, groupLoop, hL]
      have hL0 : L ≠ 0 := by
        intro h0
        exact hp (h0 ▸ hL)
      by_cases hc : L ≤ 15 ∧ L ≠ cur
      · have hc' : L ≠ 0 ∧ L ≤ 15 ∧ L ≠ cur := ⟨hL0, hc⟩
        rw [if_pos hc', if_pos hc]
        exact ih hrest _ _ _
      · have hc' : ¬(L ≠ 0 ∧ L ≤ 15 ∧ L ≠ cur) := fun hx => hc ⟨hx.2.1, hx.2.2⟩
        rw [if_neg hc', if_neg hc]
        by_cases hs : pyStrip p ≠ ""
        · rw [if_pos hs, if_pos hs]; exact ih hrest _ _ _
        · rw [if_neg hs, if_neg hs]; exact ih hrest _ _ _

/-- Flushing preserves the key-range invariant of the chapters dict. -/
theorem flushChapter_keys {chapters : List (Nat × String)} {cur : Nat} {content : List String}
    (hch : ∀ k ∈ chapters.map Prod.fst, 1 ≤ k ∧ k ≤ 15)
    (hcur : cur = 0 ∨ (1 ≤ cur ∧ cur ≤ 15)) :
    ∀ k ∈ (flushChapter chapters cur content).map Prod.fst, 1 ≤ k ∧ k ≤ 15 := by
  intro k hk
  simp only [flushChapter] at hk
  by_cases hc : content ≠ [] ∧ cur > 0
  · rw [if_pos hc] at hk
    rcases dictSet_fst_mem hk with hold | rfl
    · exact hch k hold
    · rcases hcur with h0 | hr
      · exact absurd hc.2 (by omega)
      · exact hr
  · rw [if_neg hc] at hk
    exact hch k hk

/-- Range invariant of the segmenter loop: starting from a dict whose keys lie
in `[1, 15]` and a current lesson that is 0 or in `[1, 15]`, every key of the
final dict lies in `[1, 15]`. -/
theorem segLoop_keys_range :
    ∀ (pages : List String) (chapters : List (Nat × String)) (cur : Nat)
      (content : List String),
      (∀ k ∈ chapters.map Prod.fst, 1 ≤ k ∧ k ≤ 15) →
      (cur = 0 ∨ (1 ≤ cur ∧ cur ≤ 15)) →
      ∀ k ∈ (segLoop pages chapters cur content).map Prod.fst, 1 ≤ k ∧ k ≤ 15 := by
  intro pages
  induction pages with
  | nil =>
    intro chapters cur content hch hcur
    exact flushChapter_keys hch hcur
  | cons p rest ih =>
    intro chapters cur content hch hcur
    cases hL : extract_lesson_number p with
    | none =>
      simp only [segLoop, hL]
      by_cases hs : pyStrip p ≠ ""
      · rw [if_pos hs]; exact ih _ _ _ hch hcur
      · rw [if_neg hs]; exact ih _ _ _ hch hcur
    | some L =>
      simp only [segLoop, hL]
      by_cases hc : L ≠ 0 ∧ L ≤ 15 ∧ L ≠ cur
      · rw [if_pos hc]
        refine ih _ _ _ (flushChapter_keys hch hcur) (Or.inr ⟨?_, hc.2.1⟩)
        omega
      · rw [if_neg hc]
        by_cases hs : pyStrip p ≠ ""
        · rw [if_pos hs]; exact ih _ _ _ hch hcur
        · rw [if_neg hs]; exact ih _ _ _ hch hcur

/-- Join invariant of the segmenter loop: every value of the final dict is the
`'\n\n'` join of a nonempty subsequence (in original order) of the stripped
page texts seen so far. -/
theorem segLoop_values_join :
    ∀ (pages : List String) (base : List String) (chapters : List (Nat × String))
      (cur : Nat) (content : List String),
      (∀ kv ∈ chapters, ∃ us, us ≠ [] ∧ us.Sublist base ∧ kv.2 = joinSep "\n\n" us) →
      content.Sublist base →
      ∀ kv ∈ segLoop pages chapters cur content,
        ∃ us, us ≠ [] ∧ us.Sublist (base ++ pages.map pyStrip) ∧ kv.2 = joinSep "\n\n" us := by
  intro pages
  induction pages with
  | nil =>
    intro base chapters cur content hch hcont kv hkv
    simp only [segLoop] at hkv
    simp only [List.map_nil, List.append_nil]
    simp only [flushChapter] at hkv
    by_cases hc : content ≠ [] ∧ cur > 0
    · rw [if_pos hc] at hkv
      rcases dictSet_mem_entries hkv with hold | rfl
      · exact hch kv hold
      · exact ⟨content, hc.1, hcont, rfl⟩
    · rw [if_neg hc] at hkv
      exact hch kv hkv
  | cons p rest ih =>
    intro base chapters cur content hch hcont kv hkv
    have hext : ∀ us : List String, us.Sublist base → us.Sublist (base ++ [pyStrip p]) :=
      fun us hus => hus.trans (List.sublist_append_left base [pyStrip p])
    have hch' : ∀ kv ∈ chapters,
        ∃ us, us ≠ [] ∧ us.Sublist (base ++ [pyStrip p]) ∧ kv.2 = joinSep "\n\n" us := by
      intro kv' hkv'
      rcases hch kv' hkv' with ⟨us, hne, hsub, hval⟩
      exact ⟨us, hne, hext us hsub, hval⟩
    have hassoc : (base ++ [pyStrip p]) ++ rest.map pyStrip
        = base ++ (p :: rest).map pyStrip := by
      simp [List.append_assoc]
    cases hL : extract_lesson_number p with
    | none =>
      simp only [segLoop, hL] at hkv
      by_cases hs : pyStrip p ≠ ""
      · rw [if_pos hs] at hkv
        have hflush : ∀ kv' ∈ chapters,
            ∃ us, us ≠ [] ∧ us.Sublist (base ++ [pyStrip p]) ∧ kv'.2 = joinSep "\n\n" us :=
          hch'
        have := ih (base ++ [pyStrip p]) chapters cur (content ++ [pyStrip p]) hflush
          (hcont.append (List.Sublist.refl [pyStrip p])) kv hkv
        rwa [hassoc] at this
      · rw [if_neg hs] at hkv
        have := ih (base ++ [pyStrip p]) chapters cur content hch'
          (hcont.trans (List.sublist_append_left base [pyStrip p])) kv hkv
        rwa [hassoc] at this
    | some L =>
      simp only [segLoop, hL] at hkv
      by_cases hc : L ≠ 0 ∧ L ≤ 15 ∧ L ≠ cur
      · rw [if_pos hc] at hkv
        have hflush : ∀ kv' ∈ flushChapter chapters cur content,
            ∃ us, us ≠ [] ∧ us.Sublist (base ++ [pyStrip p]) ∧ kv'.2 = joinSep "\n\n" us := by
          intro kv' hkv'
          simp only [flushChapter] at hkv'
          by_cases hfc : content ≠ [] ∧ cur > 0
          · rw [if_pos hfc] at hkv'
            rcases dictSet_mem_entries hkv' with hold | rfl
            · exact hch' kv' hold
            · exact ⟨content, hfc.1, hext content hcont, rfl⟩
          · rw [if_neg hfc] at hkv'
            exact hch' kv' hkv'
        have := ih (base ++ [pyStrip p]) (flushChapter chapters cur content) L [pyStrip p]
          hflush (List.sublist_append_right base [pyStrip p]) kv hkv
        rwa [hassoc] at this
      · rw [if_neg hc] at hkv
        by_cases hs : pyStrip p ≠ ""
        · rw [if_pos hs] at hkv
          have := ih (base ++ [pyStrip p]) chapters cur (content ++ [pyStrip p]) hch'
            (hcont.append (List.Sublist.refl [pyStrip p])) kv hkv
          rwa [hassoc] at this
        · rw [if_neg hs] at hkv
          have := ih (base ++ [pyStrip p]) chapters cur content hch'
            (hcont.trans (List.sublist_append_left base [pyStrip p])) kv hkv
          rwa [hassoc] at this

/-- With no valid marker anywhere in the stream, the segmenter's state never
leaves `current_lesson = 0` and the chapters dict is never written. -/
theorem segLoop_no_marker :
    ∀ (pages : List String),
      (∀ p ∈ pages, ∀ L, extract_lesson_number p = some L → L = 0 ∨ 15 < L) →
      ∀ chapters content, segLoop pages chapters 0 content = chapters := by
  intro pages
  induction pages with
  | nil =>
    intro _ chapters content
    simp [segLoop, flushChapter]
  | cons p rest ih =>
    intro h chapters content
    have hp := h p (List.mem_cons_self p rest)
    have hrest : ∀ q ∈ rest, ∀ L, extract_lesson_number q = some L → L = 0 ∨ 15 < L :=
      fun q hq => h q (List.mem_cons_of_mem p hq)
    cases hL : extract_lesson_number p with
    | none =>
      simp only [segLoop, hL]
      by_cases hs : pyStrip p ≠ ""
      · rw [if_pos hs]; exact ih hrest _ _
      · rw [if_neg hs]; exact ih hrest _ _
    | some L =>
      simp only [segLoop, hL]
      have hnc : ¬(L ≠ 0 ∧ L ≤ 15 ∧ L ≠ 0) := by
        rcases hp L hL with h0 | h15
        · intro hx; exact hx.1 h0
        · intro hx; exact absurd hx.2.1 (by omega)
      rw [if_neg hnc]
      by_cases hs : pyStrip p ≠ ""
      · rw [if_pos hs]; exact ih hrest _ _
      · rw [if_neg hs]; exact ih hrest _ _

/-! ### Claim theorems -/

/-- C1: for every record stream and seed set (empty for the standard
vocabulary pass, the known vocabulary words for the atom pass), no two
accepted records share a word, accepted records appear verbatim as a
subsequence of the stream (never merged or overwritten), and a record is
accepted exactly when its word is unseeded and it is the first record of the
stream with that word; in particular the standard extractor's output has
pairwise-distinct words, and an atom record whose word `五` is already known
is dropped even though its pinyin and meaning differ. -/
theorem claim_C1_dedup_first_wins :
    (∀ (seen : List String) (rs : List VocabRecord),
        ((dedupRecords seen rs).map (fun r => r.word)).Nodup
        ∧ (dedupRecords seen rs).Sublist rs
        ∧ (∀ r : VocabRecord, r ∈ dedupRecords seen rs
            ↔ (r.word ∉ seen ∧ rs.find? (fun x => x.word == r.word) = some r)))
    ∧ (∀ store : Nat → Option String,
        ((extract_all_chapters store).map (fun r => r.word)).Nodup)
    ∧ process_all_chapters ["五"] atomFixture = [] := by
  refine ⟨?_, ?_, by decide⟩
  · intro seen rs
    exact ⟨dedupRecords_words_nodup rs seen, dedupRecords_sublist rs seen,
      fun r => dedupRecords_mem_iff rs seen r⟩
  · intro store
    exact dedupRecords_words_nodup (chapterStream store) []

/-- C2 counterexample: dispatching lessons 1, 2, 3 with a corrector failing on
lesson 2 leaves the batch results map with entries for lessons 1 and 3 only —
2 entries, not one per dispatched lesson. -/
theorem claim_C2_counterexample :
    (process_all_chapters_parallel corB chaptersB []).results.map Prod.fst = [1, 3]
    ∧ (process_all_chapters_parallel corB chaptersB []).results.length = 2
    ∧ chaptersB.length = 3 := by decide

/-- C2 amended: a failed lesson produces no entry in the batch results map
(the failure is only logged); the map holds exactly one entry per successfully
corrected lesson, in completion order, and one lesson's failure never prevents
the remaining dispatched lessons from being processed and recorded — the key
list always equals the successful subset of the dispatched lessons. -/
theorem claim_C2_success_only_entries :
    ∀ (cor : Corrector) (chapters : List (Nat × String)) (store0 : List (Nat × String)),
      (chapters.map Prod.fst).Nodup →
      (process_all_chapters_parallel cor chapters store0).results.map Prod.fst
        = (chapters.filter (fun t => exceptOk (cor t.1 t.2))).map Prod.fst := by
  intro cor chapters store0 hnd
  unfold process_all_chapters_parallel
  rw [orchLoop_results_keys cor chapters _ hnd (by intro k hk; simp at hk)]
  simp

/-- C2 witness: the amended statement instantiated at the three-lesson fixture
with lesson 2 failing. -/
theorem claim_C2_witness :
    (process_all_chapters_parallel corB chaptersB []).results.map Prod.fst
      = (chaptersB.filter (fun t => exceptOk (corB t.1 t.2))).map Prod.fst :=
  claim_C2_success_only_entries corB chaptersB [] (by decide)

/-- C3 counterexample: with the single dispatched lesson 1 already persisted in
the store, the orchestrator still invokes the corrector once — not zero
times — because no pre-dispatch artifact check exists. -/
theorem claim_C3_counterexample :
    (process_all_chapters_parallel corOk [(1, "page")] [(1, "page corrected")]).invoked = [1]
    ∧ ([1] : List Nat) ≠ [] := by decide

/-- C3 amended: re-running the orchestrator invokes the corrector exactly once
per dispatched lesson, regardless of which persisted artifacts already exist;
the loop never consults the store before dispatching. -/
theorem claim_C3_invokes_every_lesson :
    ∀ (cor : Corrector) (chapters : List (Nat × String)) (store0 : List (Nat × String)),
      (process_all_chapters_parallel cor chapters store0).invoked = chapters.map Prod.fst := by
  intro cor chapters store0
  unfold process_all_chapters_parallel
  rw [orchLoop_invoked]
  simp

/-- C4: every key of the segmenter's lesson map lies in `[1, 15]` — never 0
and never above 15 — and a detected candidate outside the range (such as 39)
is treated as a continuation page, not a boundary and not an error. -/
theorem claim_C4_keys_in_range :
    (∀ (pages : List String) (k : Nat),
        k ∈ (structure_into_chapters pages).map Prod.fst → 1 ≤ k ∧ k ≤ 15)
    ∧ structure_into_chapters ["01-1 a", "39-1 b"] = [(1, "01-1 a\n\n39-1 b")] := by
  constructor
  · intro pages k hk
    exact segLoop_keys_range pages [] 0 [] (by simp) (Or.inl rfl) k hk
  · decide

/-- C4 witness: the range statement instantiated at the one-page stream
`["01-1"]`, whose lesson map has key 1. -/
theorem claim_C4_witness :
    1 ∈ (structure_into_chapters ["01-1"]).map Prod.fst ∧ (1 ≤ 1 ∧ 1 ≤ 15) :=
  ⟨by decide, claim_C4_keys_in_range.1 ["01-1"] 1 (by decide)⟩

/-- C5: the pipe-delimited form is tried before the space-separated tagged
forms and its result wins whenever it matches; the line
`3. 谢谢 | xièxie | v. | to thank` parses to word `谢谢`, pinyin `xièxie`,
part of speech `verb` (via the abbreviation table) and meaning `to thank`. -/
theorem claim_C5_pipe_priority :
    (∀ (line : String) (e : ParsedEntry),
        parsePipe line = some e → parse_vocab_line line = some e)
    ∧ parse_vocab_line "3. 谢谢 | xièxie | v. | to thank"
        = some { word := "谢谢", pinyin := "xièxie", part_of_speech := "verb",
                 meaning := "to thank" } := by
  constructor
  · intro line e h
    simp [parse_vocab_line, h]
  · decide

/-- C5 witness: the priority statement instantiated at the scenario-C line. -/
theorem claim_C5_witness :
    parse_vocab_line "3. 谢谢 | xièxie | v. | to thank"
      = some { word := "谢谢", pinyin := "xièxie", part_of_speech := "verb",
               meaning := "to thank" } :=
  claim_C5_pipe_priority.1 _ _ (by decide)

/-- C6: the combined document is the two header elements followed, for exactly
the lessons whose persisted artifact exists taken in strictly ascending order,
by a 70-character divider block and the lesson content; with lessons 1 and 3
persisted and lesson 2 missing, the output contains lesson 1 and lesson 3
content separated by dividers and omits lesson 2. -/
theorem claim_C6_combined_document :
    (∀ f : Nat → Option String,
        chapter_blocks f
          = (included_lessons f).flatMap
              (fun i => ["\n" ++ divider ++ "\n", (f i).getD "", "\n"]))
    ∧ (∀ f : Nat → Option String, (included_lessons f).Pairwise (· < ·))
    ∧ divider.length = 70
    ∧ included_lessons storeB = [1, 3]
    ∧ chapter_blocks storeB
        = ["\n" ++ divider ++ "\n", "Lesson one corrected", "\n",
           "\n" ++ divider ++ "\n", "Lesson three corrected", "\n"]
    ∧ combine_all_chapters storeB
        = joinSep "\n" (header1 :: header2 ::
            ["\n" ++ divider ++ "\n", "Lesson one corrected", "\n",
             "\n" ++ divider ++ "\n", "Lesson three corrected", "\n"]) := by
  refine ⟨?_, ?_, by decide, by decide, by decide, by decide⟩
  · intro f
    exact flatMap_blocks_filter f (List.range' 1 15)
  · intro f
    exact List.Pairwise.filter _ (List.pairwise_lt_range' 1 15)

/-- C7 counterexample: a corrected chapter 1 whose lines carry the words `你`
then `一` yields a vocabulary artifact with those two records consecutive in
the same chapter but with words in decreasing codepoint order, so the artifact
is not ordered by (chapter, word). -/
theorem claim_C7_counterexample :
    orderedByChapterWord (extract_all_chapters storeC7) = false
    ∧ (extract_all_chapters storeC7).map (fun r => r.word) = ["你", "一"]
    ∧ (extract_all_chapters storeC7).map (fun r => r.chapter) = [1, 1] := by decide

/-- C7 amended: the standard vocabulary artifact is ordered by chapter
ascending only, keeping within-chapter parse order; it is the atoms artifact
(`extract_atoms.py` sorts before serializing) that is ordered by
(chapter ascending, word ascending), as a permutation of the de-duplicated
atom records. -/
theorem claim_C7_artifact_order :
    (∀ store : Nat → Option String,
        (extract_all_chapters store).Pairwise (fun a b => a.chapter ≤ b.chapter))
    ∧ (∀ (existing : List String) (perChapter : Nat → List VocabRecord),
        (atoms_artifact existing perChapter).Pairwise (fun a b => chapWordLe a b = true)
        ∧ (atoms_artifact existing perChapter).Perm
            (process_all_chapters existing perChapter)) := by
  constructor
  · intro store
    exact List.Pairwise.sublist (dedupRecords_sublist (chapterStream store) [])
      (chapterStream_chapter_le store)
  · intro existing perChapter
    exact ⟨List.sorted_mergeSort chapWordLe_trans chapWordLe_total _,
      List.mergeSort_perm _ _⟩

/-- C8: every lesson text produced by the segmenter is the `'\n\n'` join of a
nonempty subsequence of the stripped page texts in original input order; the
three pages marked `01-1`, (no marker), `02-1` produce lesson 1 as pages 1 and
2 joined by the separator and lesson 2 as page 3 alone. -/
theorem claim_C8_lesson_is_join :
    (∀ (pages : List String) (k : Nat) (v : String),
        (k, v) ∈ structure_into_chapters pages →
        ∃ us, us ≠ [] ∧ us.Sublist (pages.map pyStrip) ∧ v = joinSep "\n\n" us)
    ∧ structure_into_chapters ["01-1 aa", "bb", "02-1 cc"]
        = [(1, "01-1 aa\n\nbb"), (2, "02-1 cc")] := by
  constructor
  · intro pages k v hkv
    have h := segLoop_values_join pages [] [] 0 [] (by simp) (by simp) (k, v) hkv
    simpa using h
  · decide

/-- C8 witness: the join statement instantiated at the scenario-A pages and
the lesson-1 entry. -/
theorem claim_C8_witness :
    ∃ us, us ≠ [] ∧ us.Sublist (["01-1 aa", "bb", "02-1 cc"].map pyStrip)
      ∧ "01-1 aa\n\nbb" = joinSep "\n\n" us :=
  claim_C8_lesson_is_join.1 ["01-1 aa", "bb", "02-1 cc"] 1 "01-1 aa\n\nbb" (by decide)

/-- C9: a page stream in which no page carries a valid marker (no detected
two-digit candidate in `[1, 15]`) segments to the empty lesson map — a
zero-lesson result, not an error. -/
theorem claim_C9_no_marker_empty_map :
    ∀ (pages : List String), (∀ p ∈ pages, validMarker p = false) →
      structure_into_chapters pages = [] := by
  intro pages h
  have h' : ∀ p ∈ pages, ∀ L, extract_lesson_number p = some L → L = 0 ∨ 15 < L := by
    intro p hp L hL
    have hv := h p hp
    unfold validMarker at hv
    rw [hL] at hv
    simp only [decide_eq_false_iff_not] at hv
    omega
  unfold structure_into_chapters
  exact segLoop_no_marker pages h' [] []

/-- C9 witness: a stream with no marker, an out-of-range marker `99` and a
zero marker `00` yields the empty map. -/
theorem claim_C9_witness :
    structure_into_chapters ["hello page", "99-1 noise", "00-1 zero"] = [] :=
  claim_C9_no_marker_empty_map _ (by decide)

/-- C10 counterexample: on the pages `["01-1 a", "00-1 b"]` the two
segmentation implementations disagree — `structure_into_chapters` treats the
`00` marker as noise and appends the page to lesson 1, while the grouping loop
of `extract_chapters_from_ocr` flushes lesson 1 and strands the page under
lesson 0, which is never emitted. -/
theorem claim_C10_counterexample :
    structure_into_chapters ["01-1 a", "00-1 b"]
      ≠ extract_chapters_from_ocr ["01-1 a", "00-1 b"]
    ∧ structure_into_chapters ["01-1 a", "00-1 b"] = [(1, "01-1 a\n\n00-1 b")]
    ∧ extract_chapters_from_ocr ["01-1 a", "00-1 b"] = [(1, "01-1 a")] := by decide

/-- C10 amended: the two implementations compute the same lesson map on every
page sequence in which no page's first detected marker has two-digit component
`00`; they diverge exactly on such `00` markers. -/
theorem claim_C10_agree_without_zero_marker :
    ∀ (pages : List String), (∀ p ∈ pages, extract_lesson_number p ≠ some 0) →
      structure_into_chapters pages = extract_chapters_from_ocr pages := by
  intro pages h
  unfold structure_into_chapters extract_chapters_from_ocr
  exact segLoop_eq_groupLoop pages h [] 0 []

/-- C10 witness: the agreement statement instantiated at a three-page stream
with markers `01`, none, `02`. -/
theorem claim_C10_witness :
    structure_into_chapters ["01-1 a", "mid page", "02-1 b"]
      = extract_chapters_from_ocr ["01-1 a", "mid page", "02-1 b"] :=
  claim_C10_agree_without_zero_marker _ (by decide)
